import Mathlib

/-!
Verification of the circuit-diagnosis core of `schemdraw/parsing/circuit.py`.

The Python module is shallowly embedded: the dynamically-typed `Node` class
becomes an inductive type whose fields keep their Python `None`-ability as
`Option`; Python `dict`s become insertion-ordered association lists with
last-write-wins update (the semantics of CPython dict assignment); fallible
operations (KeyError, AttributeError, TypeError, IndexError, RecursionError,
`exit()`) are modelled as `Option`/`Except` results.  Booleans play the role
of the truthy values the module is used with.
-/

set_option maxHeartbeats 1000000

/-- The fixed operator table `BASE_OPERATIONS` maps an operator symbol to a
boolean function; in Python the values are one- or two-argument lambdas, so the
codomain distinguishes the two arities.  Calling a lambda with the wrong number
of arguments is a `TypeError`, which the evaluator models as `none`. -/
inductive BaseOp where
  | unary (f : Bool → Bool)
  | binary (f : Bool → Bool → Bool)

/-- `BASE_OPERATIONS` from circuit.py (lines 5-15); `none` models a `KeyError`
on lookup of a symbol that is not a key of the dict. -/
def BASE_OPERATIONS : String → Option BaseOp
  | "not" => some (.unary (fun x => !x))
  | "or" => some (.binary (fun x y => x || y))
  | "nor" => some (.binary (fun x y => !(x || y)))
  | "xor" => some (.binary (fun x y => x != y))
  | "and" => some (.binary (fun x y => x && y))
  | "nand" => some (.binary (fun x y => !(x && y)))
  | "implies" => some (.binary (fun x y => !x || y))
  | "=" => none
  | "equals" => some (.binary (fun x y => x == y))
  | "xnor" => some (.binary (fun x y => !(x != y)))
  | _ => none

/-- `SINGLE_OPERAND_OPS` (circuit.py line 29). -/
def SINGLE_OPERAND_OPS : List String := ["not", "~", "-"]

/-- `DOUBLE_OPERAND_OPS` (circuit.py lines 31-42).  Note that the canonical
symbol `equals` is absent; only its alias `=` is listed. -/
def DOUBLE_OPERAND_OPS : List String :=
  ["and", "nand", "or", "nor", "xor", "xnor", "=>", "implies", "=", "!="]

/-- The `Node` class (circuit.py lines 45-54): a single shape with nullable
fields, exactly as in the source.  Leaves carry `value`; gates carry `gate`
(operator symbol), `label` and children. -/
inductive Node where
  | mk (left : Option Node) (right : Option Node) (gate : Option String)
       (label : Option String) (is_leaf : Bool) (value : Option String)

/-- Field accessor for `Node.left`. -/
def Node.left : Node → Option Node
  | .mk l _ _ _ _ _ => l

/-- Field accessor for `Node.right`. -/
def Node.right : Node → Option Node
  | .mk _ r _ _ _ _ => r

/-- Field accessor for `Node.gate`. -/
def Node.gate : Node → Option String
  | .mk _ _ g _ _ _ => g

/-- Field accessor for `Node.label`. -/
def Node.label : Node → Option String
  | .mk _ _ _ lab _ _ => lab

/-- Field accessor for `Node.is_leaf_node`. -/
def Node.is_leaf_node : Node → Bool
  | .mk _ _ _ _ ilf _ => ilf

/-- Field accessor for `Node.value`. -/
def Node.value : Node → Option String
  | .mk _ _ _ _ _ v => v

/-- Python `x in ops` where `x` may be `None` and `ops` is a tuple of strings:
`None in ops` is `False`, a string is compared by equality. -/
def pyContains (ops : List String) (x : Option String) : Bool :=
  match x with
  | some s => decide (s ∈ ops)
  | none => false

mutual

/-- `Node.evaluate_given_inputs` (circuit.py lines 71-87).  `inputs` is the
variable dict (`none` = `KeyError`), `faulty_set` the collection of faulted
gate labels.  A missing child (`AttributeError`), an operator symbol without a
`BASE_OPERATIONS` entry (`KeyError`) or with the wrong arity (`TypeError`)
all abort evaluation, modelled as `none`. -/
def Node.evaluate_given_inputs (inputs : String → Option Bool)
    (faulty_set : List (Option String)) : Node → Option Bool
  | .mk left right gate label is_leaf value =>
    if is_leaf then
      match value with
      | some v => inputs v
      | none => none
    else
      match eval_child inputs faulty_set left with
      | none => none
      | some left_value =>
        if pyContains DOUBLE_OPERAND_OPS gate then
          match eval_child inputs faulty_set right with
          | none => none
          | some right_value =>
            match gate with
            | some g =>
              match BASE_OPERATIONS g with
              | some (.binary f) =>
                some (if label ∈ faulty_set then !(f left_value right_value)
                      else f left_value right_value)
              | _ => none
            | none => none
        else
          match gate with
          | some g =>
            match BASE_OPERATIONS g with
            | some (.unary f) =>
              some (if label ∈ faulty_set then !(f left_value) else f left_value)
            | _ => none
          | none => none

/-- Evaluation of an optional child: `self.left.evaluate_given_inputs(...)` on
a missing child is an `AttributeError`, modelled as `none` like any other
propagated evaluation failure. -/
def eval_child (inputs : String → Option Bool) (faulty_set : List (Option String)) :
    Option Node → Option Bool
  | none => none
  | some n => n.evaluate_given_inputs inputs faulty_set

end

/-- `leaf_node` factory (circuit.py lines 151-155). -/
def leaf_node (value : Option String) : Node :=
  .mk none none none none true value

/-- `double_operand_gate_node` factory (circuit.py lines 158-160);
`value` defaults to `None`. -/
def double_operand_gate_node (left right : Node) (gate label : Option String) : Node :=
  .mk (some left) (some right) gate label false none

/-- `single_operand_gate_node` factory (circuit.py lines 163-165). -/
def single_operand_gate_node (left : Node) (gate label : Option String) : Node :=
  .mk (some left) none gate label false none

/-- CPython dict assignment `d[k] = v`: replaces the value in place if the key
is present, otherwise appends, preserving insertion order. -/
def dictInsert {κ β : Type} [DecidableEq κ] : List (κ × β) → κ → β → List (κ × β)
  | [], k, v => [(k, v)]
  | (k', v') :: rest, k, v =>
    if k' = k then (k', v) :: rest else (k', v') :: dictInsert rest k v

/-- CPython dict lookup `d[k]`; `none` models `KeyError`. -/
def pylookup {κ β : Type} [DecidableEq κ] : List (κ × β) → κ → Option β
  | [], _ => none
  | (k', v') :: rest, k => if k' = k then some v' else pylookup rest k

/-- The `Circuit` class state (circuit.py lines 168-172).  `head` is an
attribute only created by `add_node` when `is_head` holds, hence the outer
`Option` (none = attribute absent, `AttributeError` on access). -/
structure Circuit where
  gates : List (Option String × Node)
  gate_labels : List (Option String)
  nodes : List (Option String × Node)
  head : Option (Option String)

/-- `Circuit.__init__`. -/
def Circuit.empty : Circuit := ⟨[], [], [], none⟩

/-- `Circuit.add_node` (circuit.py lines 174-183): registers under
`node.label` in `nodes`; gates additionally go into `gates` and their label is
appended to `gate_labels`; `is_head` sets the head attribute.  Returns the
updated circuit and `node.is_leaf_node`. -/
def Circuit.add_node (c : Circuit) (node : Node) (is_head : Bool) : Circuit × Bool :=
  let nodes' := dictInsert c.nodes node.label node
  let gates' := if node.is_leaf_node then c.gates else dictInsert c.gates node.label node
  let gate_labels' := if node.is_leaf_node then c.gate_labels
                      else c.gate_labels ++ [node.label]
  let head' := if is_head then some node.label else c.head
  (⟨gates', gate_labels', nodes', head'⟩, node.is_leaf_node)

/-- `Circuit.evaluate_with_faults` (circuit.py lines 185-186): looks up the
head label in `gates` and evaluates; an unset head attribute or a label absent
from `gates` aborts (`AttributeError`/`KeyError`). -/
def Circuit.evaluate_with_faults (c : Circuit) (inputs : String → Option Bool)
    (faulty_set : List (Option String)) : Option Bool :=
  match c.head with
  | none => none
  | some h =>
    match pylookup c.gates h with
    | none => none
    | some n => n.evaluate_given_inputs inputs faulty_set

mutual

/-- The recursive helper `traverse_and_add` inside
`create_circuit_with_head_node` (circuit.py lines 128-145), with the mutated
circuit threaded explicitly. -/
def traverse_and_add (c : Circuit) (node : Node) (is_head : Bool) : Circuit :=
  match node with
  | .mk left right gate label ilf value =>
    let p := Circuit.add_node c (.mk left right gate label ilf value) is_head
    if p.2 then p.1
    else traverse_and_add_opt (traverse_and_add_opt p.1 left) right

/-- Realises the Python `if node.left: ...` guards of `traverse_and_add`
(a `Node` object is always truthy, so the guard tests for `None`). -/
def traverse_and_add_opt (c : Circuit) (o : Option Node) : Circuit :=
  match o with
  | none => c
  | some n => traverse_and_add c n false
end

/-- `create_circuit_with_head_node` (circuit.py lines 117-148). -/
def create_circuit_with_head_node (node : Node) : Circuit :=
  traverse_and_add Circuit.empty node true

/-- `Node.get_value_or_label` (circuit.py lines 65-69). -/
def Node.get_value_or_label : Node → Option String
  | .mk _ _ _ label ilf value => if ilf then value else label

/-- One serialized record, the 6-tuple returned by `Node.representation`
(circuit.py lines 56-63).  `left_ref`/`right_ref` stand for the source's
left/right notation fields; they stay optional because a leaf child whose
`value` is `None` contributes `None`.  The operator and value fields are
defaulted to `""` when falsy, as in the source. -/
structure NodeRepresentation where
  left_ref : Option String
  right_ref : Option String
  gate : String
  label : Option String
  is_leaf_node : Bool
  value : String
deriving DecidableEq

/-- `Node.representation` (circuit.py lines 56-63). -/
def Node.representation (n : Node) : NodeRepresentation :=
  { left_ref := match n.left with | some l => l.get_value_or_label | none => some ""
    right_ref := match n.right with | some r => r.get_value_or_label | none => some ""
    gate := n.gate.getD ""
    label := n.label
    is_leaf_node := n.is_leaf_node
    value := n.value.getD "" }

/-- `Circuit.save_circuit` (circuit.py lines 188-196): walks `gates` in
insertion order, putting the head gate's record first (`insert(0, ...)`) and
appending the rest.  If `gates` is nonempty but the head attribute was never
set, the loop body's `self.head` access raises, modelled as `none`. -/
def Circuit.save_circuit (c : Circuit) : Option (List NodeRepresentation) :=
  match c.gates with
  | [] => some []
  | _ =>
    match c.head with
    | none => none
    | some h =>
      some (c.gates.foldl
        (fun acc p =>
          if p.2.label = h then p.2.representation :: acc
          else acc ++ [p.2.representation])
        [])

/-- `itertools.combinations`: all size-`r` position-subsets of a list, in the
lexicographic (by position) order itertools produces. -/
def combinations {α : Type} : List α → Nat → List (List α)
  | _, 0 => [[]]
  | [], _ + 1 => []
  | x :: xs, r + 1 => (combinations xs r).map (fun c => x :: c) ++ combinations xs (r + 1)

/-- The subset enumeration of `find_minimal_faulty_gates` (circuit.py lines
202-203): sizes `r = 1 .. len gates`, each size in combinatorial order. -/
def all_subsets (gates : List (Option String)) : List (List (Option String)) :=
  ((List.range gates.length).map (fun r => combinations gates (r + 1))).flatten

/-- The accumulation loop of `find_minimal_faulty_gates` (circuit.py lines
202-206): evaluate each candidate fault set and keep those whose coerced
result equals `expected_output`; an evaluation error propagates. -/
def collect_matching (c : Circuit) (inputs : String → Option Bool)
    (expected_output : Nat) : List (List (Option String)) → Option (List (List (Option String)))
  | [] => some []
  | fs :: rest =>
    match c.evaluate_with_faults inputs fs with
    | none => none
    | some result =>
      match collect_matching c inputs expected_output rest with
      | none => none
      | some tail =>
        some (if (if result then 1 else 0) = expected_output then fs :: tail else tail)

/-- The raw exhaustive fault search: the value of the local `all_faulty_sets`
after the loops of `find_minimal_faulty_gates` (circuit.py lines 200-206).
This is the spec's `findFaultySets`. -/
def find_all_faulty_sets (c : Circuit) (inputs : String → Option Bool)
    (expected_output : Nat) : Option (List (List (Option String))) :=
  collect_matching c inputs expected_output (all_subsets c.gate_labels)

/-- Lexicographic code-point comparison of character lists: the order Python
string comparison uses. -/
def charListLeb : List Char → List Char → Bool
  | [], _ => true
  | _ :: _, [] => false
  | c :: cs, d :: ds =>
    if c.toNat < d.toNat then true
    else if d.toNat < c.toNat then false
    else charListLeb cs ds

/-- Python `sorted` order on labels (lexicographic string order); comparisons
involving `None` would raise in Python and are totalised arbitrarily here — no
claim depends on the relative order of such elements. -/
def pyLabelLe (a b : Option String) : Prop :=
  match a, b with
  | some x, some y => charListLeb x.data y.data = true
  | _, _ => True

instance : DecidableRel pyLabelLe
  | some x, some y => inferInstanceAs (Decidable (charListLeb x.data y.data = true))
  | some _, none => Decidable.isTrue trivial
  | none, _ => Decidable.isTrue trivial

/-- `sorted(sublist)` in `minimal_list_of_lists`. -/
def pysorted (l : List (Option String)) : List (Option String) :=
  l.insertionSort pyLabelLe

/-- Ascending-by-length comparison used by `unique_lists.sort(key=len)`. -/
def lenLe (a b : List (Option String)) : Prop := a.length ≤ b.length

instance : DecidableRel lenLe := fun a b => inferInstanceAs (Decidable (a.length ≤ b.length))

instance : IsTotal (List (Option String)) lenLe := ⟨fun a b => Nat.le_total a.length b.length⟩

instance : IsTrans (List (Option String)) lenLe := ⟨fun _ _ _ h h' => Nat.le_trans h h'⟩

/-- The subset-filtering loop of `minimal_list_of_lists` (circuit.py lines
220-223): accept a candidate only if no already-accepted list is a subset of
it (`set(existing).issubset(set(sublist))`). -/
def minimal_loop : List (List (Option String)) → List (List (Option String)) →
    List (List (Option String))
  | acc, [] => acc
  | acc, sublist :: rest =>
    if acc.any (fun existing => existing.all (fun e => decide (e ∈ sublist))) then
      minimal_loop acc rest
    else
      minimal_loop (acc ++ [sublist]) rest

/-- `minimal_list_of_lists` (circuit.py lines 210-225): normalize each
candidate by sorting, collapse duplicates (the Python `set` iterates in an
unspecified order; this model keeps last occurrences), sort ascending by
length (stably, like `list.sort`), then filter supersets. -/
def minimal_list_of_lists (lists : List (List (Option String))) :
    List (List (Option String)) :=
  let unique_lists := (lists.map pysorted).dedup
  let sorted_lists := unique_lists.insertionSort lenLe
  minimal_loop [] sorted_lists

/-- `find_minimal_faulty_gates` (circuit.py lines 199-207): the exhaustive
enumeration followed by minimal reduction. -/
def find_minimal_faulty_gates (c : Circuit) (inputs : String → Option Bool)
    (expected_output : Nat) : Option (List (List (Option String))) :=
  (find_all_faulty_sets c inputs expected_output).map minimal_list_of_lists

/-- Python `str.islower` restricted to ASCII: at least one cased character and
no upper-case cased character. -/
def pyIslower (s : String) : Bool :=
  s.data.any (fun c => c.isAlpha) && s.data.all (fun c => !c.isAlpha || c.isLower)

/-- Outcomes of `create_circuit_from_list` on malformed input: Python
exceptions (`IndexError` on an empty record list, `AttributeError` from
`None.islower()`, `KeyError` from `req_dict[label]`, `RecursionError` from
unbounded recursion) and the `exit()` call on an unknown operator symbol,
which terminates the interpreter process instead of raising. -/
inductive CreateError where
  | indexError
  | attributeError
  | keyError
  | recursionError
  | processExit
deriving DecidableEq

/-- The recursive helper `traverse_and_create_node` inside
`create_circuit_from_list` (circuit.py lines 246-262).  The fuel argument
models the Python call stack (CPython raises `RecursionError` past its
recursion limit; the reference code has no other bound). -/
def traverse_and_create_node
    (req_dict : List (Option String × (String × Option String × Option String))) :
    Nat → Option String → Except CreateError Node
  | 0, _ => .error .recursionError
  | _ + 1, none => .error .attributeError
  | fuel + 1, some label =>
    if pyIslower label then .ok (leaf_node (some label))
    else
      match pylookup req_dict (some label) with
      | none => .error .keyError
      | some (gate, left_ref, right_ref) =>
        if decide (gate ∈ SINGLE_OPERAND_OPS) then
          match traverse_and_create_node req_dict fuel left_ref with
          | .error e => .error e
          | .ok left_node => .ok (single_operand_gate_node left_node (some gate) (some label))
        else if decide (gate ∈ DOUBLE_OPERAND_OPS) then
          match traverse_and_create_node req_dict fuel left_ref with
          | .error e => .error e
          | .ok left_node =>
            match traverse_and_create_node req_dict fuel right_ref with
            | .error e => .error e
            | .ok right_node =>
              .ok (double_operand_gate_node left_node right_node (some gate) (some label))
        else .error .processExit

/-- `create_circuit_from_list` (circuit.py lines 228-265): read the head label
from the first record, build `req_dict`, rebuild the tree from the head label
and register it into a fresh circuit. -/
def create_circuit_from_list (fuel : Nat)
    (circuit_representation : List NodeRepresentation) : Except CreateError Circuit :=
  match circuit_representation with
  | [] => .error .indexError
  | first :: _ =>
    let head_label := first.label
    let req_dict := circuit_representation.foldl
      (fun d r => dictInsert d r.label (r.gate, r.left_ref, r.right_ref)) []
    match traverse_and_create_node req_dict fuel head_label with
    | .error e => .error e
    | .ok head_node => .ok (create_circuit_with_head_node head_node)

mutual

/-- The list of nodes `traverse_and_add` registers, in registration (pre-)
order: the node itself, then the nodes of the left subtree, then those of the
right subtree; a leaf terminates the walk. -/
def visited_nodes : Node → List Node
  | .mk left right gate label ilf value =>
    if ilf then [.mk left right gate label ilf value]
    else .mk left right gate label ilf value ::
      (visited_opt left ++ visited_opt right)

/-- Nodes registered below an optional child. -/
def visited_opt : Option Node → List Node
  | none => []
  | some n => visited_nodes n

end

mutual

/-- The gate (non-leaf) nodes of a tree in registration (pre-)order. -/
def gate_nodes : Node → List Node
  | .mk left right gate label ilf value =>
    if ilf then []
    else .mk left right gate label ilf value ::
      (gate_nodes_opt left ++ gate_nodes_opt right)

/-- Gate nodes below an optional child. -/
def gate_nodes_opt : Option Node → List Node
  | none => []
  | some n => gate_nodes n

end

mutual

/-- Height of a node tree; used to bound the recursion depth of the
tree-walking functions. -/
def Node.depth : Node → Nat
  | .mk left right _ _ _ _ => 1 + max (depth_opt left) (depth_opt right)

/-- Height of an optional child. -/
def depth_opt : Option Node → Nat
  | none => 0
  | some n => n.depth

end

mutual

/-- The trees the code's serializer can actually round-trip: the spec's shape
and casing invariants (leaves exactly as built by `leaf_node`, with a
lower-case variable name; gates exactly as built by the two gate factories,
with a non-lower-case label and no `value`) strengthened by the code's
operator classification — every gate operator must lie in
`SINGLE_OPERAND_OPS` or `DOUBLE_OPERAND_OPS`, with the operand count the
membership dictates.  This is strictly narrower than the spec's operator
table: the canonical symbol `equals` lies in neither tuple, so a tree with an
`equals` gate is excluded here — and reconstruction indeed `exit()`s on its
serialized record rather than rebuilding it. -/
def wf : Node → Bool
  | .mk left right gate label ilf value =>
    if ilf then
      left.isNone && right.isNone && gate.isNone && label.isNone &&
        (match value with | some v => pyIslower v | none => false)
    else
      match gate, label with
      | some g, some lab =>
        !pyIslower lab && value.isNone &&
          (if decide (g ∈ SINGLE_OPERAND_OPS) then wf_opt left && right.isNone
           else if decide (g ∈ DOUBLE_OPERAND_OPS) then wf_opt left && wf_opt right
           else false)
      | _, _ => false

/-- Well-formedness of an optional child: the child must be present and
itself well-formed. -/
def wf_opt : Option Node → Bool
  | none => false
  | some n => wf n

end

/-- A sequence of `add_node` registrations with `is_head = False`, applied in
order. -/
def add_all (c : Circuit) (ns : List Node) : Circuit :=
  ns.foldl (fun c n => (c.add_node n false).1) c

/-- An arbitrary sequence of `add_node` registrations (node plus `is_head`
flag), applied in order. -/
def regFold (c : Circuit) (regs : List (Node × Bool)) : Circuit :=
  regs.foldl (fun c p => (c.add_node p.1 p.2).1) c

/-- Leaf `a` of the module's `__main__` example. -/
def a_node : Node := leaf_node (some "a")

/-- Leaf `b` of the module's `__main__` example. -/
def b_node : Node := leaf_node (some "b")

/-- Leaf `c` of the module's `__main__` example. -/
def c_node : Node := leaf_node (some "c")

/-- Gate `A = a and b` of the module's `__main__` example. -/
def a_and_b_node : Node := double_operand_gate_node a_node b_node (some "and") (some "A")

/-- Root gate `B = A or c` of the module's `__main__` example. -/
def a_and_b_or_c_node : Node :=
  double_operand_gate_node a_and_b_node c_node (some "or") (some "B")

/-- The `__main__` example's circuit: gate `A` registered first, then the head
gate `B`. -/
def main_circuit : Circuit :=
  ((Circuit.empty.add_node a_and_b_node false).1.add_node a_and_b_or_c_node true).1

/-- The `__main__` example's inputs `{a: 1, b: 1, c: 1}`. -/
def main_inputs : String → Option Bool :=
  fun s => if s = "a" ∨ s = "b" ∨ s = "c" then some true else none

theorem pylookup_dictInsert_self {κ β : Type} [DecidableEq κ] (d : List (κ × β)) (k : κ) (v : β) :
    pylookup (dictInsert d k v) k = some v := by
  induction d with
  | nil => simp [dictInsert, pylookup]
  | cons p rest ih =>
    by_cases h : p.1 = k
    · simp [dictInsert, pylookup, h]
    · simp [dictInsert, pylookup, h, ih]

theorem pylookup_dictInsert_ne {κ β : Type} [DecidableEq κ] (d : List (κ × β)) (k k' : κ) (v : β)
    (h : k' ≠ k) : pylookup (dictInsert d k' v) k = pylookup d k := by
  induction d with
  | nil => simp [dictInsert, pylookup, h]
  | cons p rest ih =>
    by_cases hp : p.1 = k'
    · simp [dictInsert, pylookup, hp, h]
    · simp only [dictInsert, if_neg hp]
      by_cases hk : p.1 = k
      · simp [pylookup, hk]
      · simp [pylookup, hk, ih]

theorem pylookup_eq_none_iff {κ β : Type} [DecidableEq κ] (d : List (κ × β)) (k : κ) :
    pylookup d k = none ↔ k ∉ d.map Prod.fst := by
  induction d with
  | nil => simp [pylookup]
  | cons p rest ih =>
    by_cases h : p.1 = k
    · simp [pylookup, h]
    · simp [pylookup, h, ih, Ne.symm h]

theorem dictInsert_fresh {κ β : Type} [DecidableEq κ] (d : List (κ × β)) (k : κ) (v : β)
    (h : k ∉ d.map Prod.fst) : dictInsert d k v = d ++ [(k, v)] := by
  induction d with
  | nil => simp [dictInsert]
  | cons p rest ih =>
    simp only [List.map_cons, List.mem_cons] at h
    push_neg at h
    simp [dictInsert, Ne.symm h.1, ih h.2]

theorem pylookup_append {κ β : Type} [DecidableEq κ] (d e : List (κ × β)) (k : κ) :
    pylookup (d ++ e) k =
      match pylookup d k with
      | some v => some v
      | none => pylookup e k := by
  induction d with
  | nil => simp [pylookup]
  | cons p rest ih =>
    by_cases h : p.1 = k
    · simp [pylookup, h]
    · simp [pylookup, h, ih]

theorem pylookup_mem {κ β : Type} [DecidableEq κ] (d : List (κ × β)) (k : κ) (v : β)
    (h : pylookup d k = some v) : (k, v) ∈ d := by
  induction d with
  | nil => simp [pylookup] at h
  | cons p rest ih =>
    by_cases hp : p.1 = k
    · simp only [pylookup, if_pos hp] at h
      obtain ⟨rfl⟩ := h
      subst hp
      exact List.mem_cons_self _ _
    · simp only [pylookup, if_neg hp] at h
      exact List.mem_cons_of_mem _ (ih h)

/-- Claim C1.  The operator table declares `equals` as a two-operand boolean
equality, but `DOUBLE_OPERAND_OPS` omits the canonical symbol `equals` (it
lists only the alias `=`), so `evaluate_given_inputs` takes the single-operand
branch for an `equals` gate and calls the two-argument lambda with one
argument — a `TypeError` (`none`) instead of the table's `x = y`.  This
contradicts the code's own operator table. -/
theorem C1_equals_gate_misclassified :
    (double_operand_gate_node a_node b_node (some "equals") (some "E")).evaluate_given_inputs
        main_inputs [] = none ∧
    BASE_OPERATIONS "equals" = some (.binary (fun x y => x == y)) ∧
    pyContains DOUBLE_OPERAND_OPS (some "equals") = false ∧
    pyContains DOUBLE_OPERAND_OPS (some "implies") = true := by
  exact ⟨rfl, rfl, by decide, by decide⟩

/-- Claim C7.  The concrete `__main__` scenario: gate `A = a and b`, root
`B = A or c`, all inputs true.  Faulting `B` alone yields `false`; the
exhaustive fault search for expected output `0` records exactly `{B}` and
`{A, B}` in that order; the minimal reduction keeps exactly `[{B}]`, which is
also what `find_minimal_faulty_gates` returns. -/
theorem C7_concrete_scenario :
    main_circuit.evaluate_with_faults main_inputs [some "B"] = some false ∧
    find_all_faulty_sets main_circuit main_inputs 0 =
      some [[some "B"], [some "A", some "B"]] ∧
    minimal_list_of_lists [[some "B"], [some "A", some "B"]] = [[some "B"]] ∧
    find_minimal_faulty_gates main_circuit main_inputs 0 = some [[some "B"]] := by
  exact ⟨by decide, by decide, by decide, by decide⟩

/-- Claim C8, counterexample.  A record whose operator symbol is in neither
operand set does not surface an inspectable error value to the caller:
`create_circuit_from_list` reaches the `exit()` call and terminates the
process (modelled by the distinguished `processExit` outcome). -/
theorem C8_unknown_operator_exits_process :
    create_circuit_from_list 5
        [{ left_ref := some "a", right_ref := some "b", gate := "foo",
           label := some "G", is_leaf_node := false, value := "" }] =
      .error .processExit := rfl

/-- Claim C8, amended.  Whenever reconstruction reaches a non-leaf label whose
`req_dict` entry holds an operator symbol in neither `SINGLE_OPERAND_OPS` nor
`DOUBLE_OPERAND_OPS`, the process is terminated via `exit()` rather than an
error value being returned; the other core failures are surfaced as
exceptions. -/
theorem C8_amended_unknown_operator_behavior
    (d : List (Option String × (String × Option String × Option String)))
    (fuel : Nat) (label g : String) (lr rr : Option String)
    (h1 : pyIslower label = false)
    (h2 : pylookup d (some label) = some (g, lr, rr))
    (h3 : g ∉ SINGLE_OPERAND_OPS) (h4 : g ∉ DOUBLE_OPERAND_OPS) :
    traverse_and_create_node d (fuel + 1) (some label) = .error .processExit := by
  simp [traverse_and_create_node, h1, h2, h3, h4]

/-- Witness for the amended claim C8, at the record used by the
counterexample. -/
theorem C8_amended_unknown_operator_behavior_witness :
    traverse_and_create_node [(some "G", ("foo", some "a", some "b"))] 5 (some "G") =
      .error .processExit :=
  C8_amended_unknown_operator_behavior _ 4 "G" "foo" (some "a") (some "b")
    (by decide) rfl (by decide) (by decide)

/-- Claim C10.  Registering a gate always appends its label to `gate_labels`
(so the list's length counts gate registrations), while the `nodes` and
`gates` dicts are last-write-wins; a gate label registered twice occurs twice
in `gate_labels` although the dicts keep a single, most recent entry. -/
theorem C10_gate_registration_appends :
    (∀ (regs : List (Node × Bool)) (c0 : Circuit),
      (regFold c0 regs).gate_labels.length =
        c0.gate_labels.length + regs.countP (fun p => !p.1.is_leaf_node)) ∧
    (∀ (c : Circuit) (n : Node) (b : Bool), n.is_leaf_node = false →
      (c.add_node n b).1.gate_labels = c.gate_labels ++ [n.label] ∧
      pylookup (c.add_node n b).1.gates n.label = some n ∧
      pylookup (c.add_node n b).1.nodes n.label = some n) ∧
    (∀ (c : Circuit) (n1 n2 : Node) (b1 b2 : Bool),
      n1.is_leaf_node = false → n2.is_leaf_node = false → n1.label = n2.label →
      (regFold c [(n1, b1), (n2, b2)]).gate_labels =
        c.gate_labels ++ [n1.label, n2.label] ∧
      pylookup (regFold c [(n1, b1), (n2, b2)]).gates n1.label = some n2) := by
  refine ⟨?_, ?_, ?_⟩
  · intro regs
    induction regs with
    | nil => intro c0; simp [regFold]
    | cons p rest ih =>
      intro c0
      have hstep : (regFold c0 (p :: rest)) = regFold ((c0.add_node p.1 p.2).1) rest := rfl
      rw [hstep, ih]
      by_cases h : p.1.is_leaf_node
      · simp [Circuit.add_node, h, List.countP_cons]
      · simp [Circuit.add_node, h, List.countP_cons]
        omega
  · intro c n b h
    refine ⟨by simp [Circuit.add_node, h], ?_, ?_⟩
    · simp [Circuit.add_node, h, pylookup_dictInsert_self]
    · simp [Circuit.add_node, h, pylookup_dictInsert_self]
  · intro c n1 n2 b1 b2 h1 h2 hlab
    constructor
    · simp [regFold, Circuit.add_node, h1, h2, hlab, List.append_assoc]
    · simp [regFold, Circuit.add_node, h1, h2, hlab, pylookup_dictInsert_self]

/-- Witness for claim C10: registering gate `A` twice puts its label twice in
`gate_labels` while the `gates` dict keeps one entry. -/
theorem C10_gate_registration_appends_witness :
    (regFold Circuit.empty [(a_and_b_node, false), (a_and_b_node, true)]).gate_labels =
      [some "A", some "A"] ∧
    pylookup (regFold Circuit.empty
        [(a_and_b_node, false), (a_and_b_node, true)]).gates (some "A") =
      some a_and_b_node := by
  have h := C10_gate_registration_appends.2.2 Circuit.empty
    a_and_b_node a_and_b_node false true rfl rfl rfl
  simpa [Circuit.empty, a_and_b_node, double_operand_gate_node, Node.label] using h

/-- The pre-inversion gate computation of `evaluate_given_inputs` (circuit.py
lines 76-82): evaluate the left operand, then — depending on the operator's
membership in `DOUBLE_OPERAND_OPS` — the right operand, and apply the operator
function; the fault check of lines 84-87 is not included. -/
def gate_raw_output (inputs : String → Option Bool) (faulty_set : List (Option String))
    (left right : Option Node) (gate : Option String) : Option Bool :=
  match eval_child inputs faulty_set left with
  | none => none
  | some left_value =>
    if pyContains DOUBLE_OPERAND_OPS gate then
      match eval_child inputs faulty_set right with
      | none => none
      | some right_value =>
        match gate with
        | some g =>
          match BASE_OPERATIONS g with
          | some (.binary f) => some (f left_value right_value)
          | _ => none
        | none => none
    else
      match gate with
      | some g =>
        match BASE_OPERATIONS g with
        | some (.unary f) => some (f left_value)
        | _ => none
      | none => none

theorem eval_gate_eq (inputs : String → Option Bool) (fs : List (Option String))
    (left right : Option Node) (gate label value : Option String) :
    Node.evaluate_given_inputs inputs fs (.mk left right gate label false value) =
      (gate_raw_output inputs fs left right gate).map
        (fun output => if label ∈ fs then !output else output) := by
  simp only [Node.evaluate_given_inputs, gate_raw_output, Bool.false_eq_true, if_false]
  cases eval_child inputs fs left with
  | none => rfl
  | some left_value =>
    by_cases hg : pyContains DOUBLE_OPERAND_OPS gate
    · simp only [hg, if_true]
      cases eval_child inputs fs right with
      | none => rfl
      | some right_value =>
        cases gate with
        | none => rfl
        | some g =>
          cases hb : BASE_OPERATIONS g with
          | none => simp [hb]
          | some op => cases op with
            | unary f => simp [hb]
            | binary f => simp [hb]
    · simp only [hg, if_false]
      cases gate with
      | none => rfl
      | some g =>
        cases hb : BASE_OPERATIONS g with
        | none => simp [hb]
        | some op => cases op with
          | unary f => simp [hb]
          | binary f => simp [hb]

theorem depth_opt_le (left right : Option Node) (gate label : Option String)
    (ilf : Bool) (value : Option String) (k : Nat)
    (hd : Node.depth (.mk left right gate label ilf value) ≤ k + 1) :
    depth_opt left ≤ k ∧ depth_opt right ≤ k := by
  simp only [Node.depth] at hd
  constructor
  · have := Nat.le_max_left (depth_opt left) (depth_opt right)
    omega
  · have := Nat.le_max_right (depth_opt left) (depth_opt right)
    omega

theorem mem_gate_nodes_of_child (left right : Option Node) (gate label value : Option String)
    (m : Node) (h : m ∈ gate_nodes_opt left ++ gate_nodes_opt right) :
    m ∈ gate_nodes (.mk left right gate label false value) := by
  simp only [gate_nodes, Bool.false_eq_true, if_false]
  exact List.mem_cons_of_mem _ h

theorem self_mem_gate_nodes (left right : Option Node) (gate label value : Option String) :
    (Node.mk left right gate label false value) ∈
      gate_nodes (.mk left right gate label false value) := by
  simp only [gate_nodes, Bool.false_eq_true, if_false]
  exact List.mem_cons_self _ _

theorem eval_fs_congr :
    ∀ (k : Nat) (n : Node) (inputs : String → Option Bool)
      (fs fs' : List (Option String)),
      n.depth ≤ k →
      (∀ m ∈ gate_nodes n, ((m.label ∈ fs) ↔ (m.label ∈ fs'))) →
      n.evaluate_given_inputs inputs fs = n.evaluate_given_inputs inputs fs' := by
  intro k
  induction k with
  | zero =>
    intro n inputs fs fs' hd _
    cases n with
    | mk left right gate label ilf value =>
      simp only [Node.depth] at hd
      omega
  | succ k ih =>
    intro n inputs fs fs' hd hmem
    cases n with
    | mk left right gate label ilf value =>
      cases ilf with
      | true => simp [Node.evaluate_given_inputs]
      | false =>
        obtain ⟨hdl, hdr⟩ := depth_opt_le left right gate label false value k hd
        have hself : ((label : Option String) ∈ fs) ↔ (label ∈ fs') := by
          have h := hmem (.mk left right gate label false value)
            (self_mem_gate_nodes left right gate label value)
          simpa [Node.label] using h
        have hL : eval_child inputs fs left = eval_child inputs fs' left := by
          cases left with
          | none => rfl
          | some l =>
            simp only [eval_child]
            exact ih l inputs fs fs' hdl (fun m hm =>
              hmem m (mem_gate_nodes_of_child _ _ gate label value m
                (List.mem_append_left _ hm)))
        have hR : eval_child inputs fs right = eval_child inputs fs' right := by
          cases right with
          | none => rfl
          | some r =>
            simp only [eval_child]
            exact ih r inputs fs fs' hdr (fun m hm =>
              hmem m (mem_gate_nodes_of_child _ _ gate label value m
                (List.mem_append_right _ hm)))
        rw [eval_gate_eq, eval_gate_eq]
        have hraw : gate_raw_output inputs fs left right gate =
            gate_raw_output inputs fs' left right gate := by
          simp only [gate_raw_output, hL, hR]
        rw [hraw]
        cases gate_raw_output inputs fs' left right gate with
        | none => rfl
        | some out => simp [hself]

/-- Claim C2.  At every gate node whose own label does not label any gate in
its subtrees (the spec's label-uniqueness invariant), `evaluate_given_inputs`
computes the operator output first and only then applies fault inversion:
the value handed to the parent equals the un-faulted-at-this-gate value,
negated exactly when the gate's own label is in the fault set.  Hence a
faulted internal gate changes the value every ancestor consumes. -/
theorem C2_fault_inversion_after_operator
    (left right : Option Node) (gate label value : Option String)
    (inputs : String → Option Bool) (fs : List (Option String))
    (hdistinct : ∀ m ∈ gate_nodes_opt left ++ gate_nodes_opt right, m.label ≠ label) :
    Node.evaluate_given_inputs inputs fs (.mk left right gate label false value) =
      (Node.evaluate_given_inputs inputs (fs.filter (fun x => x != label))
          (.mk left right gate label false value)).map
        (fun output => if label ∈ fs then !output else output) := by
  rw [eval_gate_eq, eval_gate_eq]
  have hmemiff : ∀ m ∈ gate_nodes_opt left ++ gate_nodes_opt right,
      ((m.label ∈ fs.filter (fun x => x != label)) ↔ (m.label ∈ fs)) := by
    intro m hm
    have hne : m.label ≠ label := hdistinct m hm
    simp [List.mem_filter, hne]
  have hL : eval_child inputs (fs.filter (fun x => x != label)) left =
      eval_child inputs fs left := by
    cases left with
    | none => rfl
    | some l =>
      simp only [eval_child]
      exact eval_fs_congr l.depth l inputs _ fs (Nat.le_refl _) (fun m hm =>
        hmemiff m (List.mem_append_left _ hm))
  have hR : eval_child inputs (fs.filter (fun x => x != label)) right =
      eval_child inputs fs right := by
    cases right with
    | none => rfl
    | some r =>
      simp only [eval_child]
      exact eval_fs_congr r.depth r inputs _ fs (Nat.le_refl _) (fun m hm =>
        hmemiff m (List.mem_append_right _ hm))
  have hraw : gate_raw_output inputs (fs.filter (fun x => x != label)) left right gate =
      gate_raw_output inputs fs left right gate := by
    simp only [gate_raw_output, hL, hR]
  rw [hraw]
  have hnotin : (label : Option String) ∉ fs.filter (fun x => x != label) := by
    simp [List.mem_filter]
  cases gate_raw_output inputs fs left right gate with
  | none => rfl
  | some out => simp [hnotin]

/-- Witness for claim C2: the root gate `B` of the `__main__` example under
fault set `{B}`. -/
theorem C2_fault_inversion_after_operator_witness :
    Node.evaluate_given_inputs main_inputs [some "B"]
        (.mk (some a_and_b_node) (some c_node) (some "or") (some "B") false none) =
      (Node.evaluate_given_inputs main_inputs
          (([some "B"] : List (Option String)).filter (fun x => x != some "B"))
          (.mk (some a_and_b_node) (some c_node) (some "or") (some "B") false none)).map
        (fun output => if (some "B" : Option String) ∈ [some "B"] then !output
                       else output) :=
  C2_fault_inversion_after_operator (some a_and_b_node) (some c_node)
    (some "or") (some "B") none main_inputs [some "B"] (by decide)

theorem mem_combinations {α : Type} :
    ∀ (xs : List α) (r : Nat) (S : List α),
      S ∈ combinations xs r ↔ S.Sublist xs ∧ S.length = r := by
  intro xs
  induction xs with
  | nil =>
    intro r S
    cases r with
    | zero =>
      simp only [combinations, List.mem_singleton, List.sublist_nil]
      constructor
      · rintro rfl; simp
      · rintro ⟨rfl, _⟩; rfl
    | succ r =>
      simp only [combinations, List.not_mem_nil, false_iff, List.sublist_nil]
      rintro ⟨rfl, h⟩
      simp at h
  | cons x xs ih =>
    intro r S
    cases r with
    | zero =>
      simp only [combinations, List.mem_singleton]
      constructor
      · rintro rfl; exact ⟨List.nil_sublist _, rfl⟩
      · rintro ⟨_, hlen⟩
        exact List.length_eq_zero.mp hlen
    | succ r =>
      simp only [combinations, List.mem_append, List.mem_map]
      constructor
      · rintro (⟨c, hc, rfl⟩ | h)
        · have hc' := (ih r c).mp hc
          exact ⟨List.Sublist.cons₂ x hc'.1, by simp [hc'.2]⟩
        · have h' := (ih (r + 1) S).mp h
          exact ⟨List.Sublist.cons x h'.1, h'.2⟩
      · rintro ⟨hsub, hlen⟩
        cases S with
        | nil => simp at hlen
        | cons y S' =>
          cases hsub with
          | cons _ h => exact Or.inr ((ih (r + 1) (y :: S')).mpr ⟨h, hlen⟩)
          | cons₂ _ h =>
            refine Or.inl ⟨S', (ih r S').mpr ⟨h, ?_⟩, rfl⟩
            simpa using hlen

theorem mem_all_subsets (gates : List (Option String)) (S : List (Option String)) :
    S ∈ all_subsets gates ↔ S.Sublist gates ∧ 1 ≤ S.length := by
  simp only [all_subsets, List.mem_flatten, List.mem_map, List.mem_range]
  constructor
  · rintro ⟨l, ⟨r, hr, rfl⟩, hS⟩
    have h := (mem_combinations gates (r + 1) S).mp hS
    exact ⟨h.1, by omega⟩
  · rintro ⟨hsub, hlen⟩
    refine ⟨combinations gates S.length, ⟨S.length - 1, ?_, ?_⟩, ?_⟩
    · have := List.Sublist.length_le hsub
      omega
    · congr 1
      omega
    · exact (mem_combinations gates S.length S).mpr ⟨hsub, rfl⟩

theorem collect_matching_some_iff (c : Circuit) (inputs : String → Option Bool)
    (expected : Nat) :
    ∀ (xs L : List (List (Option String))),
      collect_matching c inputs expected xs = some L →
      ∀ S, S ∈ L ↔ (S ∈ xs ∧ ∃ b, c.evaluate_with_faults inputs S = some b ∧
        (if b then 1 else 0) = expected) := by
  intro xs
  induction xs with
  | nil =>
    intro L h S
    simp only [collect_matching, Option.some_inj] at h
    subst h
    simp
  | cons fs rest ih =>
    intro L h S
    simp only [collect_matching] at h
    cases hev : c.evaluate_with_faults inputs fs with
    | none => rw [hev] at h; exact absurd h (by simp)
    | some b =>
      rw [hev] at h
      cases hrec : collect_matching c inputs expected rest with
      | none => rw [hrec] at h; exact absurd h (by simp)
      | some tail =>
        rw [hrec] at h
        simp only [Option.some_inj] at h
        subst h
        have htail := ih tail hrec
        by_cases hb : (if b then 1 else 0) = expected
        · simp only [if_pos hb]
          constructor
          · intro hS
            rcases List.mem_cons.mp hS with rfl | hS'
            · exact ⟨List.mem_cons_self _ _, b, hev, hb⟩
            · have := (htail S).mp hS'
              exact ⟨List.mem_cons_of_mem _ this.1, this.2⟩
          · rintro ⟨hmem, b', hev', hb'⟩
            rcases List.mem_cons.mp hmem with rfl | hmem'
            · exact List.mem_cons_self _ _
            · exact List.mem_cons_of_mem _ ((htail S).mpr ⟨hmem', b', hev', hb'⟩)
        · simp only [if_neg hb]
          rw [htail S]
          constructor
          · rintro ⟨hmem, rest⟩
            exact ⟨List.mem_cons_of_mem _ hmem, rest⟩
          · rintro ⟨hmem, b', hev', hb'⟩
            rcases List.mem_cons.mp hmem with rfl | hmem'
            · rw [hev] at hev'
              obtain ⟨rfl⟩ := hev'
              exact absurd hb' hb
            · exact ⟨hmem', b', hev', hb'⟩

/-- Claim C3.  The fault enumeration is exhaustive and sound: when the
enumeration stage of `find_minimal_faulty_gates` completes without an
evaluation error, its recorded list contains a candidate exactly when that
candidate is a nonempty combination of the ordered gate-label list whose
faulted evaluation equals the expected output. -/
theorem C3_fault_search_exhaustive (c : Circuit) (inputs : String → Option Bool)
    (expected : Nat) (L : List (List (Option String)))
    (h : find_all_faulty_sets c inputs expected = some L) (S : List (Option String)) :
    S ∈ L ↔ (S.Sublist c.gate_labels ∧ 1 ≤ S.length ∧
      ∃ b, c.evaluate_with_faults inputs S = some b ∧ (if b then 1 else 0) = expected) := by
  have hiff := collect_matching_some_iff c inputs expected (all_subsets c.gate_labels) L h S
  rw [hiff, mem_all_subsets]
  tauto

/-- Witness for claim C3: the `__main__` scenario, checking membership of
`{A, B}` in the recorded list. -/
theorem C3_fault_search_exhaustive_witness :
    (([some "A", some "B"] : List (Option String)) ∈
        [[some "B"], [some "A", some "B"]] ↔
      (List.Sublist ([some "A", some "B"] : List (Option String))
          main_circuit.gate_labels ∧
        1 ≤ ([some "A", some "B"] : List (Option String)).length ∧
        ∃ b, main_circuit.evaluate_with_faults main_inputs [some "A", some "B"] =
            some b ∧ (if b then 1 else 0) = 0)) :=
  C3_fault_search_exhaustive main_circuit main_inputs 0
    [[some "B"], [some "A", some "B"]] (by decide) [some "A", some "B"]

theorem guard_true_exists {acc : List (List (Option String))} {B : List (Option String)}
    (hg : acc.any (fun existing => existing.all (fun e => decide (e ∈ B))) = true) :
    ∃ A ∈ acc, A ⊆ B := by
  obtain ⟨A, hA, hall⟩ := List.any_eq_true.mp hg
  exact ⟨A, hA, fun e he => of_decide_eq_true (List.all_eq_true.mp hall e he)⟩

theorem guard_false_not_subset {acc : List (List (Option String))} {B : List (Option String)}
    (hg : acc.any (fun existing => existing.all (fun e => decide (e ∈ B))) = false) :
    ∀ A ∈ acc, ¬(A ⊆ B) := by
  intro A hA hsub
  have hall : A.all (fun e => decide (e ∈ B)) = true :=
    List.all_eq_true.mpr (fun e he => decide_eq_true (hsub he))
  have hany : acc.any (fun existing => existing.all (fun e => decide (e ∈ B))) = true :=
    List.any_eq_true.mpr ⟨A, hA, hall⟩
  rw [hg] at hany
  exact Bool.false_ne_true hany

theorem subset_of_subset_of_len_le {A B : List (Option String)} (hA : A.Nodup)
    (hB : B.Nodup) (hBA : B ⊆ A) (hlen : A.length ≤ B.length) : A ⊆ B := by
  have hBsub : B.toFinset ⊆ A.toFinset := fun x hx =>
    List.mem_toFinset.mpr (hBA (List.mem_toFinset.mp hx))
  have hcardA : A.toFinset.card = A.length := List.toFinset_card_of_nodup hA
  have hcardB : B.toFinset.card = B.length := List.toFinset_card_of_nodup hB
  have hcard_le : A.toFinset.card ≤ B.toFinset.card := by
    have := Finset.card_le_card hBsub
    omega
  have heq := Finset.eq_of_subset_of_card_le hBsub hcard_le
  intro x hx
  have hx' : x ∈ A.toFinset := List.mem_toFinset.mpr hx
  rw [← heq] at hx'
  exact List.mem_toFinset.mp hx'

theorem minimal_loop_acc_mem :
    ∀ (rest acc : List (List (Option String))) (a : List (Option String)),
      a ∈ acc → a ∈ minimal_loop acc rest := by
  intro rest
  induction rest with
  | nil => intro acc a ha; simpa [minimal_loop] using ha
  | cons B rest' ih =>
    intro acc a ha
    simp only [minimal_loop]
    by_cases hg : acc.any (fun existing => existing.all (fun e => decide (e ∈ B))) = true
    · rw [if_pos hg]
      exact ih acc a ha
    · rw [if_neg hg]
      exact ih (acc ++ [B]) a (List.mem_append_left _ ha)

theorem minimal_loop_covers :
    ∀ (rest acc : List (List (Option String))) (x : List (Option String)),
      x ∈ rest → ∃ m ∈ minimal_loop acc rest, m ⊆ x := by
  intro rest
  induction rest with
  | nil => intro acc x hx; simp at hx
  | cons B rest' ih =>
    intro acc x hx
    simp only [minimal_loop]
    by_cases hg : acc.any (fun existing => existing.all (fun e => decide (e ∈ B))) = true
    · rw [if_pos hg]
      rcases List.mem_cons.mp hx with rfl | hx'
      · obtain ⟨A, hA, hAx⟩ := guard_true_exists hg
        exact ⟨A, minimal_loop_acc_mem rest' acc A hA, hAx⟩
      · exact ih acc x hx'
    · rw [if_neg hg]
      rcases List.mem_cons.mp hx with rfl | hx'
      · exact ⟨x, minimal_loop_acc_mem rest' (acc ++ [x]) x
          (List.mem_append_right _ (List.mem_singleton.mpr rfl)), fun e he => he⟩
      · exact ih (acc ++ [B]) x hx'

theorem minimal_loop_pairwise :
    ∀ (rest acc : List (List (Option String))),
      acc.Pairwise (fun A B => ¬(A ⊆ B) ∧ ¬(B ⊆ A)) →
      (∀ A ∈ acc, ∀ B ∈ rest, A.length ≤ B.length) →
      rest.Pairwise (fun A B => A.length ≤ B.length) →
      (∀ l ∈ acc, l.Nodup) → (∀ l ∈ rest, l.Nodup) →
      (minimal_loop acc rest).Pairwise (fun A B => ¬(A ⊆ B) ∧ ¬(B ⊆ A)) := by
  intro rest
  induction rest with
  | nil =>
    intro acc hacc _ _ _ _
    simpa [minimal_loop] using hacc
  | cons B rest' ih =>
    intro acc hacc hle hsorted hndacc hndrest
    simp only [minimal_loop]
    have hsorted' := (List.pairwise_cons.mp hsorted).2
    have hBle := (List.pairwise_cons.mp hsorted).1
    by_cases hg : acc.any (fun existing => existing.all (fun e => decide (e ∈ B))) = true
    · rw [if_pos hg]
      exact ih acc hacc
        (fun A hA C hC => hle A hA C (List.mem_cons_of_mem _ hC))
        hsorted' hndacc (fun l hl => hndrest l (List.mem_cons_of_mem _ hl))
    · rw [if_neg hg]
      have hnotsub := guard_false_not_subset (Bool.eq_false_iff.mpr hg) 
      have hndB : B.Nodup := hndrest B (List.mem_cons_self _ _)
      have hacc' : (acc ++ [B]).Pairwise (fun A C => ¬(A ⊆ C) ∧ ¬(C ⊆ A)) := by
        rw [List.pairwise_append]
        refine ⟨hacc, List.pairwise_singleton _ _, ?_⟩
        intro A hA C hC
        rw [List.mem_singleton] at hC
        subst hC
        have h1 : ¬(A ⊆ C) := hnotsub A hA
        refine ⟨h1, fun hCA => ?_⟩
        have hAC : A ⊆ C :=
          subset_of_subset_of_len_le (hndacc A hA) hndB hCA
            (hle A hA C (List.mem_cons_self _ _))
        exact h1 hAC
      refine ih (acc ++ [B]) hacc' ?_ hsorted' ?_
        (fun l hl => hndrest l (List.mem_cons_of_mem _ hl))
      · intro A hA C hC
        rcases List.mem_append.mp hA with hA' | hA'
        · exact hle A hA' C (List.mem_cons_of_mem _ hC)
        · rw [List.mem_singleton] at hA'
          subst hA'
          exact hBle C hC
      · intro l hl
        rcases List.mem_append.mp hl with hl' | hl'
        · exact hndacc l hl'
        · rw [List.mem_singleton] at hl'
          subst hl'
          exact hndB

/-- Claim C4.  When every candidate in the input is duplicate-free (a list of
label *sets*), the output of `minimal_list_of_lists` is an antichain: for any
two entries, neither is contained in the other. -/
theorem C4_reducer_antichain (lists : List (List (Option String)))
    (h : ∀ l ∈ lists, l.Nodup) :
    (minimal_list_of_lists lists).Pairwise (fun A B => ¬(A ⊆ B) ∧ ¬(B ⊆ A)) := by
  unfold minimal_list_of_lists
  apply minimal_loop_pairwise
  · exact List.Pairwise.nil
  · intro A hA
    simp at hA
  · exact List.sorted_insertionSort lenLe _
  · intro l hl
    simp at hl
  · intro l hl
    have hl' : l ∈ ((lists.map pysorted).dedup) :=
      (List.perm_insertionSort lenLe _).mem_iff.mp hl
    rw [List.mem_dedup] at hl'
    obtain ⟨l0, hl0, rfl⟩ := List.mem_map.mp hl'
    exact ((List.perm_insertionSort pyLabelLe l0).nodup_iff).mpr (h l0 hl0)

/-- Claim C5.  Every candidate handed to `minimal_list_of_lists` is a superset
of (or equal to) some set the reducer returns, so the reduced output still
covers every fault set the enumeration found. -/
theorem C5_reducer_coverage (lists : List (List (Option String)))
    (c : List (Option String)) (hc : c ∈ lists) :
    ∃ m ∈ minimal_list_of_lists lists, m ⊆ c := by
  unfold minimal_list_of_lists
  have h1 : pysorted c ∈ lists.map pysorted := List.mem_map_of_mem pysorted hc
  have h2 : pysorted c ∈ (lists.map pysorted).dedup := List.mem_dedup.mpr h1
  have h3 : pysorted c ∈ ((lists.map pysorted).dedup).insertionSort lenLe :=
    (List.perm_insertionSort lenLe _).mem_iff.mpr h2
  obtain ⟨m, hm, hmc⟩ := minimal_loop_covers _ [] (pysorted c) h3
  refine ⟨m, hm, fun e he => ?_⟩
  have := hmc he
  exact (List.perm_insertionSort pyLabelLe c).mem_iff.mp this

/-- Witness for claim C4: the candidate family of the `__main__` scenario. -/
theorem C4_reducer_antichain_witness :
    (minimal_list_of_lists [[some "B"], [some "A", some "B"]]).Pairwise
      (fun A B => ¬(A ⊆ B) ∧ ¬(B ⊆ A)) :=
  C4_reducer_antichain [[some "B"], [some "A", some "B"]] (by decide)

/-- Witness for claim C5: the superset `{A, B}` found by the `__main__`
scenario's search is covered by the reduced output. -/
theorem C5_reducer_coverage_witness :
    ∃ m ∈ minimal_list_of_lists [[some "B"], [some "A", some "B"]],
      m ⊆ [some "A", some "B"] :=
  C5_reducer_coverage [[some "B"], [some "A", some "B"]] [some "A", some "B"]
    (by decide)

theorem add_all_nil (c : Circuit) : add_all c [] = c := rfl

theorem add_all_cons (c : Circuit) (n : Node) (ns : List Node) :
    add_all c (n :: ns) = add_all ((c.add_node n false).1) ns := rfl

theorem add_all_append (c : Circuit) (xs ys : List Node) :
    add_all c (xs ++ ys) = add_all (add_all c xs) ys := by
  simp [add_all, List.foldl_append]

theorem add_all_head : ∀ (ns : List Node) (c : Circuit), (add_all c ns).head = c.head := by
  intro ns
  induction ns with
  | nil => intro c; rfl
  | cons n ns ih =>
    intro c
    rw [add_all_cons, ih]
    rfl

theorem add_all_set_head :
    ∀ (ns : List Node) (c : Circuit) (h : Option (Option String)),
      add_all {c with head := h} ns = {add_all c ns with head := h} := by
  intro ns
  induction ns with
  | nil => intro c h; rfl
  | cons n ns ih =>
    intro c h
    rw [add_all_cons, add_all_cons]
    have hstep : (({c with head := h} : Circuit).add_node n false).1 =
        {(c.add_node n false).1 with head := h} := rfl
    rw [hstep, ih]

theorem traverse_eq_add_all :
    ∀ (k : Nat) (n : Node), n.depth ≤ k → ∀ (c : Circuit) (ihb : Bool),
      traverse_and_add c n ihb =
        {add_all c (visited_nodes n) with head := if ihb then some n.label else c.head} := by
  intro k
  induction k with
  | zero =>
    intro n hd
    cases n with
    | mk left right gate label ilf value =>
      simp only [Node.depth] at hd
      omega
  | succ k ihk =>
    intro n hd c ihb
    have hopt : ∀ (o : Option Node), depth_opt o ≤ k → ∀ (c' : Circuit),
        traverse_and_add_opt c' o = add_all c' (visited_opt o) := by
      intro o ho c'
      cases o with
      | none => rfl
      | some m =>
        simp only [traverse_and_add_opt, visited_opt]
        rw [ihk m ho c' false]
        have hh : (add_all c' (visited_nodes m)).head = c'.head := add_all_head _ _
        rw [if_neg (by simp : ¬(false = true)), ← hh]
    cases n with
    | mk left right gate label ilf value =>
      obtain ⟨hdl, hdr⟩ := depth_opt_le left right gate label ilf value k hd
      cases ilf with
      | true =>
        simp only [traverse_and_add, visited_nodes, if_pos rfl]
        rfl
      | false =>
        simp only [traverse_and_add, visited_nodes, Bool.false_eq_true, if_false]
        rw [show (c.add_node (Node.mk left right gate label false value) ihb).2 = false
            from rfl]
        simp only [Bool.false_eq_true, if_false]
        rw [hopt _ hdl, hopt _ hdr, ← add_all_append]
        have hp : ((Circuit.add_node c (.mk left right gate label false value) ihb).1) =
            {(Circuit.add_node c (.mk left right gate label false value) false).1 with
              head := if ihb then some label else c.head} := by
          cases ihb <;> rfl
        rw [hp, add_all_set_head, add_all_cons]
        rfl

theorem add_all_gate_labels :
    ∀ (ns : List Node) (c : Circuit),
      (add_all c ns).gate_labels =
        c.gate_labels ++ (ns.filter (fun m => !m.is_leaf_node)).map Node.label := by
  intro ns
  induction ns with
  | nil => intro c; simp [add_all]
  | cons n ns ih =>
    intro c
    rw [add_all_cons, ih]
    by_cases h : n.is_leaf_node = true
    · simp [Circuit.add_node, h, List.filter_cons]
    · have h' : n.is_leaf_node = false := Bool.eq_false_iff.mpr h
      simp [Circuit.add_node, h', List.filter_cons]

theorem visited_filter_gates :
    ∀ (k : Nat) (n : Node), n.depth ≤ k →
      (visited_nodes n).filter (fun m => !m.is_leaf_node) = gate_nodes n := by
  intro k
  induction k with
  | zero =>
    intro n hd
    cases n with
    | mk left right gate label ilf value =>
      simp only [Node.depth] at hd
      omega
  | succ k ih =>
    intro n hd
    have hopt : ∀ (o : Option Node), depth_opt o ≤ k →
        (visited_opt o).filter (fun m => !m.is_leaf_node) = gate_nodes_opt o := by
      intro o ho
      cases o with
      | none => rfl
      | some m => simpa [visited_opt, gate_nodes_opt] using ih m ho
    cases n with
    | mk left right gate label ilf value =>
      obtain ⟨hdl, hdr⟩ := depth_opt_le left right gate label ilf value k hd
      cases ilf with
      | true => simp [visited_nodes, gate_nodes, Node.is_leaf_node]
      | false =>
        simp only [visited_nodes, gate_nodes, Bool.false_eq_true, if_false]
        rw [List.filter_cons, List.filter_append, hopt left hdl, hopt right hdr]
        simp [Node.is_leaf_node]

theorem pylookup_map_of_nodup {κ β γ : Type} [DecidableEq κ] :
    ∀ (L : List γ) (key : γ → κ) (val : γ → β) (x : γ), x ∈ L →
      (L.map key).Nodup →
      pylookup (L.map (fun y => (key y, val y))) (key x) = some (val x) := by
  intro L
  induction L with
  | nil => intro key val x hx; simp at hx
  | cons y rest ih =>
    intro key val x hx hnd
    rcases List.mem_cons.mp hx with rfl | hx'
    · simp [pylookup]
    · rw [List.map_cons] at hnd
      have hnd' := List.nodup_cons.mp hnd
      have hne : key y ≠ key x := fun he => hnd'.1 (he ▸ List.mem_map_of_mem key hx')
      simp only [List.map_cons, pylookup, if_neg hne]
      exact ih key val x hx' hnd'.2

theorem add_all_gates :
    ∀ (ns : List Node) (c : Circuit),
      (∀ m ∈ ns, m.is_leaf_node = false → m.label ∉ c.gates.map Prod.fst) →
      ((ns.filter (fun m => !m.is_leaf_node)).map Node.label).Nodup →
      (add_all c ns).gates =
        c.gates ++ (ns.filter (fun m => !m.is_leaf_node)).map (fun m => (m.label, m)) := by
  intro ns
  induction ns with
  | nil => intro c _ _; simp [add_all]
  | cons n rest ih =>
    intro c h1 h2
    rw [add_all_cons]
    by_cases h : n.is_leaf_node = true
    · have hg : (c.add_node n false).1.gates = c.gates := by simp [Circuit.add_node, h]
      have := ih ((c.add_node n false).1)
        (by rw [hg]; exact fun m hm hml => h1 m (List.mem_cons_of_mem _ hm) hml)
        (by simpa [List.filter_cons, h] using h2)
      rw [this, hg]
      simp [List.filter_cons, h]
    · have h' : n.is_leaf_node = false := Bool.eq_false_iff.mpr h
      have hfresh : n.label ∉ c.gates.map Prod.fst :=
        h1 n (List.mem_cons_self _ _) h'
      have hg : (c.add_node n false).1.gates = c.gates ++ [(n.label, n)] := by
        simp only [Circuit.add_node, h', Bool.false_eq_true, if_false]
        exact dictInsert_fresh _ _ _ hfresh
      have h2' := h2
      rw [List.filter_cons] at h2'
      simp only [h', Bool.not_false, if_pos, List.map_cons, List.nodup_cons] at h2'
      have := ih ((c.add_node n false).1)
        (by
          rw [hg]
          intro m hm hml
          simp only [List.map_append, List.mem_append, List.map_cons, List.map_nil]
          push_neg
          refine ⟨h1 m (List.mem_cons_of_mem _ hm) hml, ?_⟩
          simp only [List.mem_singleton]
          intro he
          apply h2'.1
          rw [← he]
          exact List.mem_map_of_mem Node.label
            (List.mem_filter.mpr ⟨hm, by simp [hml]⟩)
          )
        h2'.2
      rw [this, hg]
      simp [List.filter_cons, h', List.append_assoc]

theorem add_all_nodes_lookup_ne :
    ∀ (ns : List Node) (c : Circuit) (k : Option String),
      (∀ m ∈ ns, m.label ≠ k) →
      pylookup (add_all c ns).nodes k = pylookup c.nodes k := by
  intro ns
  induction ns with
  | nil => intro c k _; rfl
  | cons n rest ih =>
    intro c k h
    rw [add_all_cons, ih _ k (fun m hm => h m (List.mem_cons_of_mem _ hm))]
    have hn : (c.add_node n false).1.nodes = dictInsert c.nodes n.label n := rfl
    rw [hn, pylookup_dictInsert_ne _ _ _ _ (h n (List.mem_cons_self _ _))]

theorem add_all_nodes_lookup_unique :
    ∀ (ns : List Node) (c : Circuit) (k : Option String) (m : Node),
      m ∈ ns → m.label = k → (∀ m' ∈ ns, m'.label = k → m' = m) →
      pylookup (add_all c ns).nodes k = some m := by
  intro ns
  induction ns with
  | nil => intro c k m hm; simp at hm
  | cons n rest ih =>
    intro c k m hm hk huniq
    rw [add_all_cons]
    by_cases hrest : ∃ m' ∈ rest, m'.label = k
    · obtain ⟨m', hm', hk'⟩ := hrest
      have : m' = m := huniq m' (List.mem_cons_of_mem _ hm') hk'
      subst this
      exact ih _ k m' hm' hk'
        (fun x hx hxk => huniq x (List.mem_cons_of_mem _ hx) hxk)
    · push_neg at hrest
      have hmn : m = n := by
        rcases List.mem_cons.mp hm with rfl | hm'
        · rfl
        · exact absurd hk (hrest m hm')
      rw [add_all_nodes_lookup_ne rest _ k hrest]
      have hn : (c.add_node n false).1.nodes = dictInsert c.nodes n.label n := rfl
      rw [hn, ← hmn, hk, ← hk, pylookup_dictInsert_self]

theorem wf_leaf_shape (left right : Option Node) (gate label value : Option String)
    (h : wf (.mk left right gate label true value) = true) :
    left = none ∧ right = none ∧ gate = none ∧ label = none ∧
      ∃ v, value = some v ∧ pyIslower v = true := by
  cases value with
  | none => simp [wf] at h
  | some v =>
    simp only [wf, if_pos, Bool.and_eq_true, Option.isNone_iff_eq_none] at h
    exact ⟨h.1.1.1.1, h.1.1.1.2, h.1.1.2, h.1.2, v, rfl, h.2⟩

theorem wf_gate_shape (left right : Option Node) (gate label value : Option String)
    (h : wf (.mk left right gate label false value) = true) :
    ∃ g lab, gate = some g ∧ label = some lab ∧ pyIslower lab = false ∧ value = none ∧
      ((g ∈ SINGLE_OPERAND_OPS ∧ (∃ l, left = some l ∧ wf l = true) ∧ right = none) ∨
       (g ∉ SINGLE_OPERAND_OPS ∧ g ∈ DOUBLE_OPERAND_OPS ∧
         (∃ l, left = some l ∧ wf l = true) ∧ (∃ r, right = some r ∧ wf r = true))) := by
  cases gate with
  | none => simp [wf] at h
  | some g =>
    cases label with
    | none => simp [wf] at h
    | some lab =>
      simp only [wf, Bool.false_eq_true, if_false, Bool.and_eq_true, Bool.not_eq_true',
        Option.isNone_iff_eq_none] at h
      refine ⟨g, lab, rfl, rfl, h.1.1, h.1.2, ?_⟩
      by_cases hs : g ∈ SINGLE_OPERAND_OPS
      · rw [if_pos (decide_eq_true hs)] at h
        have h2 := h.2
        rw [Bool.and_eq_true, Option.isNone_iff_eq_none] at h2
        refine Or.inl ⟨hs, ?_, h2.2⟩
        cases left with
        | none => simp [wf_opt] at h2
        | some l => exact ⟨l, rfl, by simpa [wf_opt] using h2.1⟩
      · rw [if_neg (by simpa using hs)] at h
        by_cases hd : g ∈ DOUBLE_OPERAND_OPS
        · rw [if_pos (decide_eq_true hd)] at h
          have h2 := h.2
          rw [Bool.and_eq_true] at h2
          refine Or.inr ⟨hs, hd, ?_, ?_⟩
          · cases left with
            | none => simp [wf_opt] at h2
            | some l => exact ⟨l, rfl, by simpa [wf_opt] using h2.1⟩
          · cases right with
            | none => simp [wf_opt] at h2
            | some r => exact ⟨r, rfl, by simpa [wf_opt] using h2.2⟩
        · rw [if_neg (by simpa using hd)] at h
          exact absurd h.2 (by simp)

theorem visited_wf :
    ∀ (k : Nat) (n : Node), n.depth ≤ k → wf n = true →
      ∀ m ∈ visited_nodes n, wf m = true := by
  intro k
  induction k with
  | zero =>
    intro n hd
    cases n with
    | mk left right gate label ilf value =>
      simp only [Node.depth] at hd
      omega
  | succ k ih =>
    intro n hd hwf m hm
    cases n with
    | mk left right gate label ilf value =>
      obtain ⟨hdl, hdr⟩ := depth_opt_le left right gate label ilf value k hd
      cases ilf with
      | true =>
        simp only [visited_nodes, if_pos, List.mem_singleton] at hm
        subst hm
        exact hwf
      | false =>
        simp only [visited_nodes, Bool.false_eq_true, if_false, List.mem_cons,
          List.mem_append] at hm
        rcases hm with rfl | hm' | hm'
        · exact hwf
        · obtain ⟨g, lab, _, _, _, _, hcases⟩ :=
            wf_gate_shape left right gate label value hwf
          rcases hcases with ⟨_, ⟨l, rfl, hwl⟩, _⟩ | ⟨_, _, ⟨l, rfl, hwl⟩, _⟩ <;>
            exact ih l (by simpa [depth_opt] using hdl) hwl m
              (by simpa [visited_opt] using hm')
        · obtain ⟨g, lab, _, _, _, _, hcases⟩ :=
            wf_gate_shape left right gate label value hwf
          rcases hcases with ⟨_, _, rfl⟩ | ⟨_, _, _, ⟨r, rfl, hwr⟩⟩
          · simp [visited_opt] at hm'
          · exact ih r (by simpa [depth_opt] using hdr) hwr m
              (by simpa [visited_opt] using hm')

theorem wf_gate_label (g : Node) (hwf : wf g = true) (hg : g.is_leaf_node = false) :
    ∃ lab, g.label = some lab := by
  cases g with
  | mk left right gate label ilf value =>
    cases ilf with
    | true => simp [Node.is_leaf_node] at hg
    | false =>
      obtain ⟨g', lab, _, hlab, _⟩ := wf_gate_shape left right gate label value hwf
      exact ⟨lab, by simp [Node.label, hlab]⟩

theorem wf_leaf_label (m : Node) (hwf : wf m = true) (hm : m.is_leaf_node = true) :
    m.label = none := by
  cases m with
  | mk left right gate label ilf value =>
    cases ilf with
    | false => simp [Node.is_leaf_node] at hm
    | true =>
      obtain ⟨_, _, _, hlab, _⟩ := wf_leaf_shape left right gate label value hwf
      simp [Node.label, hlab]

theorem mem_gate_nodes_iff (n : Node) (m : Node) :
    m ∈ gate_nodes n ↔ m ∈ visited_nodes n ∧ m.is_leaf_node = false := by
  rw [← visited_filter_gates n.depth n (Nat.le_refl _), List.mem_filter]
  simp

/-- Claim C9, amended.  After `create_circuit_with_head_node`, every *gate* is
retrievable from both the `nodes` and the `gates` maps under its own label,
`gate_labels` lists exactly the gate labels in pre-order registration order,
and the head is the root's label; leaves, whose `label` attribute is `None`,
are all registered under the single key `None` (last write wins), so they are
not individually retrievable. -/
theorem create_circuit_char (T : Node)
    (hnodup : ((gate_nodes T).map Node.label).Nodup) :
    (create_circuit_with_head_node T).gates = (gate_nodes T).map (fun m => (m.label, m)) ∧
    (create_circuit_with_head_node T).head = some T.label ∧
    (create_circuit_with_head_node T).gate_labels = (gate_nodes T).map Node.label := by
  have hT := traverse_eq_add_all T.depth T (Nat.le_refl _) Circuit.empty true
  unfold create_circuit_with_head_node
  rw [hT]
  have hfilter := visited_filter_gates T.depth T (Nat.le_refl _)
  refine ⟨?_, rfl, ?_⟩
  · show (add_all Circuit.empty (visited_nodes T)).gates = _
    rw [add_all_gates (visited_nodes T) Circuit.empty
      (by intro m _ _; simp [Circuit.empty])
      (by rw [hfilter]; exact hnodup)]
    rw [hfilter]
    simp [Circuit.empty]
  · show (add_all Circuit.empty (visited_nodes T)).gate_labels = _
    rw [add_all_gate_labels, hfilter]
    simp [Circuit.empty]

theorem create_circuit_nodes_lookup (T : Node) (hwf : wf T = true)
    (hnodup : ((gate_nodes T).map Node.label).Nodup) :
    ∀ g ∈ gate_nodes T,
      pylookup (create_circuit_with_head_node T).nodes g.label = some g := by
  have hT := traverse_eq_add_all T.depth T (Nat.le_refl _) Circuit.empty true
  unfold create_circuit_with_head_node
  rw [hT]
  intro g hg
  have hgv := (mem_gate_nodes_iff T g).mp hg
  have hgwf := visited_wf T.depth T (Nat.le_refl _) hwf g hgv.1
  obtain ⟨lab, hlab⟩ := wf_gate_label g hgwf hgv.2
  show pylookup (add_all Circuit.empty (visited_nodes T)).nodes g.label = some g
  apply add_all_nodes_lookup_unique (visited_nodes T) Circuit.empty g.label g hgv.1 rfl
  intro m' hm' hm'k
  by_cases hml : m'.is_leaf_node = true
  · have := wf_leaf_label m' (visited_wf T.depth T (Nat.le_refl _) hwf m' hm') hml
    rw [this, hlab] at hm'k
    exact absurd hm'k (by simp)
  · have hm'g : m' ∈ gate_nodes T :=
      (mem_gate_nodes_iff T m').mpr ⟨hm', Bool.eq_false_iff.mpr hml⟩
    exact List.inj_on_of_nodup_map hnodup hm'g hg hm'k

/-- Claim C9, amended.  After `create_circuit_with_head_node`, every *gate* is
retrievable from both the `nodes` and the `gates` maps under its own label,
`gate_labels` lists exactly the gate labels in pre-order registration order,
and the head is the root's label; leaves, whose `label` attribute is `None`,
are all registered under the single key `None` (last write wins), so they are
not individually retrievable. -/
theorem C9_amended_registry (T : Node) (hwf : wf T = true)
    (hnodup : ((gate_nodes T).map Node.label).Nodup) :
    (create_circuit_with_head_node T).gate_labels = (gate_nodes T).map Node.label ∧
    (create_circuit_with_head_node T).head = some T.label ∧
    ∀ g ∈ gate_nodes T,
      pylookup (create_circuit_with_head_node T).gates g.label = some g ∧
      pylookup (create_circuit_with_head_node T).nodes g.label = some g := by
  obtain ⟨hgates, hhead, hlabels⟩ := create_circuit_char T hnodup
  refine ⟨hlabels, hhead, ?_⟩
  intro g hg
  constructor
  · rw [hgates]
    have := pylookup_map_of_nodup (gate_nodes T) Node.label (fun m => m) g hg hnodup
    simpa using this
  · exact create_circuit_nodes_lookup T hwf hnodup g hg

/-- Claim C9, counterexample.  For the gate `A = a and b` the registry's
`nodes` map holds only two entries: the gate under `"A"` and the *last
registered leaf* under `None` — the leaf `a`, although reachable from the
root, is not retrievable under its own label (both leaves share the label
`None`). -/
theorem C9_leaf_not_retrievable :
    (create_circuit_with_head_node a_and_b_node).nodes =
      [(some "A", a_and_b_node), (none, leaf_node (some "b"))] ∧
    a_and_b_node.left = some (leaf_node (some "a")) ∧
    leaf_node (some "a") ≠ leaf_node (some "b") := by
  refine ⟨rfl, rfl, fun h => ?_⟩
  have := congrArg Node.value h
  simp [leaf_node, Node.value] at this

theorem save_fold (h : Option String) :
    ∀ (L : List (Option String × Node)) (acc : List NodeRepresentation),
      (∀ p ∈ L, p.2.label ≠ h) →
      L.foldl (fun acc p => if p.2.label = h then p.2.representation :: acc
                            else acc ++ [p.2.representation]) acc =
        acc ++ L.map (fun p => p.2.representation) := by
  intro L
  induction L with
  | nil => intro acc _; simp
  | cons p rest ih =>
    intro acc hne
    rw [List.foldl_cons, if_neg (hne p (List.mem_cons_self _ _)), ih _
      (fun q hq => hne q (List.mem_cons_of_mem _ hq))]
    simp

theorem save_circuit_spec (c : Circuit) (g0 : Node) (rest : List (Option String × Node))
    (hg : c.gates = (g0.label, g0) :: rest) (hh : c.head = some g0.label)
    (hne : ∀ p ∈ rest, p.2.label ≠ g0.label) :
    c.save_circuit = some (g0.representation :: rest.map (fun p => p.2.representation)) := by
  unfold Circuit.save_circuit
  rw [hg, hh]
  show some _ = _
  rw [List.foldl_cons, if_pos rfl, save_fold _ _ _ hne]
  rfl

theorem foldl_dictInsert_map {κ β γ : Type} [DecidableEq κ] :
    ∀ (L : List γ) (key : γ → κ) (val : γ → β) (d : List (κ × β)),
      (L.map key).Nodup → (∀ x ∈ L, key x ∉ d.map Prod.fst) →
      L.foldl (fun d x => dictInsert d (key x) (val x)) d =
        d ++ L.map (fun x => (key x, val x)) := by
  intro L
  induction L with
  | nil => intro key val d _ _; simp
  | cons y rest ih =>
    intro key val d hnd hfresh
    rw [List.map_cons, List.nodup_cons] at hnd
    rw [List.foldl_cons, dictInsert_fresh _ _ _ (hfresh y (List.mem_cons_self _ _)),
      ih key val _ hnd.2]
    · simp
    · intro x hx
      simp only [List.map_append, List.mem_append, List.map_cons, List.map_nil]
      push_neg
      refine ⟨hfresh x (List.mem_cons_of_mem _ hx), ?_⟩
      simp only [List.mem_singleton]
      intro he
      exact hnd.1 (he ▸ List.mem_map_of_mem key hx)

theorem traverse_create_ok :
    ∀ (fuel : Nat) (d : List (Option String × (String × Option String × Option String)))
      (n : Node), wf n = true → n.depth < fuel →
      (∀ g ∈ gate_nodes n, pylookup d g.label =
        some (g.representation.gate, g.representation.left_ref,
              g.representation.right_ref)) →
      traverse_and_create_node d fuel n.get_value_or_label = .ok n := by
  intro fuel
  induction fuel with
  | zero => intro d n _ hd _; omega
  | succ fuel ih =>
    intro d n hwf hd hdict
    cases n with
    | mk left right gate label ilf value =>
      cases ilf with
      | true =>
        obtain ⟨rfl, rfl, rfl, rfl, v, rfl, hvl⟩ :=
          wf_leaf_shape left right gate label value hwf
        simp [traverse_and_create_node, Node.get_value_or_label, hvl, leaf_node]
      | false =>
        obtain ⟨g, lab, rfl, rfl, hlab, rfl, hcases⟩ :=
          wf_gate_shape left right gate label value hwf
        have hself := hdict (.mk left right (some g) (some lab) false none)
          (self_mem_gate_nodes left right (some g) (some lab) none)
        simp only [Node.label] at hself
        simp only [Node.depth] at hd
        have hdl : depth_opt left < fuel := by
          have := Nat.le_max_left (depth_opt left) (depth_opt right)
          omega
        have hdr : depth_opt right < fuel := by
          have := Nat.le_max_right (depth_opt left) (depth_opt right)
          omega
        rcases hcases with ⟨hs, ⟨l, rfl, hwl⟩, rfl⟩ |
          ⟨hs, hdbl, ⟨l, rfl, hwl⟩, ⟨r, rfl, hwr⟩⟩
        · have hrecl := ih d l hwl (by simpa [depth_opt] using hdl)
            (fun g' hg' => hdict g' (mem_gate_nodes_of_child (some l) none
              (some g) (some lab) none g'
              (List.mem_append_left _ (by simpa [gate_nodes_opt] using hg'))))
          have hrep : (Node.mk (some l) none (some g) (some lab) false
              none).representation.left_ref = l.get_value_or_label := rfl
          have hgate_eq : (Node.mk (some l) none (some g) (some lab) false
              none).representation.gate = g := rfl
          have hgvl : (Node.mk (some l) none (some g) (some lab) false
              none).get_value_or_label = some lab := rfl
          rw [hgvl]
          simp only [traverse_and_create_node, hlab, Bool.false_eq_true, if_false,
            hself, hgate_eq, hrep]
          rw [if_pos (decide_eq_true hs), hrecl]
          rfl
        · have hrecl := ih d l hwl (by simpa [depth_opt] using hdl)
            (fun g' hg' => hdict g' (mem_gate_nodes_of_child (some l) (some r)
              (some g) (some lab) none g'
              (List.mem_append_left _ (by simpa [gate_nodes_opt] using hg'))))
          have hrecr := ih d r hwr (by simpa [depth_opt] using hdr)
            (fun g' hg' => hdict g' (mem_gate_nodes_of_child (some l) (some r)
              (some g) (some lab) none g'
              (List.mem_append_right _ (by simpa [gate_nodes_opt] using hg'))))
          have hrepl : (Node.mk (some l) (some r) (some g) (some lab) false
              none).representation.left_ref = l.get_value_or_label := rfl
          have hrepr : (Node.mk (some l) (some r) (some g) (some lab) false
              none).representation.right_ref = r.get_value_or_label := rfl
          have hgate_eq : (Node.mk (some l) (some r) (some g) (some lab) false
              none).representation.gate = g := rfl
          have hgvl : (Node.mk (some l) (some r) (some g) (some lab) false
              none).get_value_or_label = some lab := rfl
          rw [hgvl]
          simp only [traverse_and_create_node, hlab, Bool.false_eq_true, if_false,
            hself, hgate_eq, hrepl, hrepr]
          rw [if_neg (by simp [hs]), if_pos (decide_eq_true hdbl), hrecl, hrecr]
          rfl

theorem get_value_or_label_gate (n : Node) (h : n.is_leaf_node = false) :
    n.get_value_or_label = n.label := by
  cases n with
  | mk left right gate label ilf value =>
    cases ilf with
    | true => simp [Node.is_leaf_node] at h
    | false => rfl

theorem create_circuit_from_list_cons (fuel : Nat) (first : NodeRepresentation)
    (rest' : List NodeRepresentation) :
    create_circuit_from_list fuel (first :: rest') =
      match traverse_and_create_node
          ((first :: rest').foldl
            (fun d r => dictInsert d r.label (r.gate, r.left_ref, r.right_ref)) [])
          fuel first.label with
      | .error e => .error e
      | .ok head_node => .ok (create_circuit_with_head_node head_node) := rfl

/-- Claim C6, amended.  Round-trip fidelity holds for gate trees whose
operators are drawn from the code's `SINGLE_OPERAND_OPS`/`DOUBLE_OPERAND_OPS`
tuples (so not the canonical `equals`, on which reconstruction terminates the
process — see the counterexample): for such a tree with lower-case leaf
variables, non-lower-case pairwise distinct gate labels, factory shapes and a
gate at the root, serializing the registry built from it and reconstructing
from the records succeeds and yields a circuit that evaluates identically to
the original for every input assignment and every fault set (the
reconstruction actually rebuilds the identical tree). -/
theorem C6_round_trip_fidelity (T : Node) (hwf : wf T = true)
    (hgate : T.is_leaf_node = false)
    (hnodup : ((gate_nodes T).map Node.label).Nodup)
    (fuel : Nat) (hfuel : T.depth < fuel) :
    ∃ (rep : List NodeRepresentation) (c2 : Circuit),
      (create_circuit_with_head_node T).save_circuit = some rep ∧
      create_circuit_from_list fuel rep = .ok c2 ∧
      ∀ (inputs : String → Option Bool) (fs : List (Option String)),
        c2.evaluate_with_faults inputs fs =
          (create_circuit_with_head_node T).evaluate_with_faults inputs fs := by
  obtain ⟨hgates, hhead, _⟩ := create_circuit_char T hnodup
  obtain ⟨rest, hgn⟩ : ∃ rest, gate_nodes T = T :: rest := by
    cases T with
    | mk left right gate label ilf value =>
      cases ilf with
      | true => simp [Node.is_leaf_node] at hgate
      | false =>
        exact ⟨gate_nodes_opt left ++ gate_nodes_opt right, by simp [gate_nodes]⟩
  have hndT : T.label ∉ rest.map Node.label ∧ (rest.map Node.label).Nodup := by
    have h := hnodup
    rw [hgn, List.map_cons, List.nodup_cons] at h
    exact h
  refine ⟨(gate_nodes T).map Node.representation, create_circuit_with_head_node T,
    ?_, ?_, fun _ _ => rfl⟩
  · have hmm : rest.map Node.representation =
        (rest.map (fun m => (m.label, m))).map (fun p => p.2.representation) := by
      simp [List.map_map]
    rw [hgn, List.map_cons, hmm]
    apply save_circuit_spec _ T (rest.map (fun m => (m.label, m)))
    · rw [hgates, hgn]
      simp
    · rw [hhead]
    · intro p hp
      obtain ⟨m, hm, rfl⟩ := List.mem_map.mp hp
      intro he
      exact hndT.1 (he ▸ List.mem_map_of_mem Node.label hm)
  · have hnd' : ((gate_nodes T).map (fun m => m.representation.label)).Nodup := by
      have hmapeq : (gate_nodes T).map (fun m => m.representation.label) =
          (gate_nodes T).map Node.label := List.map_congr_left (fun m _ => rfl)
      rw [hmapeq]
      exact hnodup
    have hreq : ((gate_nodes T).map Node.representation).foldl
        (fun d r => dictInsert d r.label (r.gate, r.left_ref, r.right_ref)) [] =
        (gate_nodes T).map (fun m => (m.representation.label,
          (m.representation.gate, m.representation.left_ref,
           m.representation.right_ref))) := by
      rw [List.foldl_map]
      rw [foldl_dictInsert_map (gate_nodes T) (fun m => m.representation.label)
        (fun m => (m.representation.gate, m.representation.left_ref,
          m.representation.right_ref)) [] hnd' (by simp)]
      simp
    have hdict : ∀ g ∈ gate_nodes T,
        pylookup ((gate_nodes T).map (fun m => (m.representation.label,
          (m.representation.gate, m.representation.left_ref,
           m.representation.right_ref)))) g.label =
          some (g.representation.gate, g.representation.left_ref,
                g.representation.right_ref) := by
      intro g hg
      exact pylookup_map_of_nodup (gate_nodes T) (fun m => m.representation.label)
        (fun m => (m.representation.gate, m.representation.left_ref,
          m.representation.right_ref)) g hg hnd'
    have htrav := traverse_create_ok fuel _ T hwf hfuel (fun g hg => by
      rw [← hreq] at hdict
      exact hdict g hg)
    rw [get_value_or_label_gate T hgate] at htrav
    rw [hgn, List.map_cons, create_circuit_from_list_cons]
    rw [show (T.representation.label) = T.label from rfl]
    rw [show (T.representation :: rest.map Node.representation) =
        (gate_nodes T).map Node.representation from by rw [hgn]; rfl]
    rw [htrav]

/-- A tree that is valid for the spec's data model — an `equals` gate (binary
per the spec's operator table and per `BASE_OPERATIONS` itself) with label
`"E"` over the lower-case leaves `a` and `b`. -/
def eq_gate_tree : Node :=
  double_operand_gate_node a_node b_node (some "equals") (some "E")

/-- Claim C6, counterexample.  Round-trip fidelity does not hold for every
tree: for the spec-valid tree `E = a equals b`, serialization succeeds, but
`create_circuit_from_list` on the produced records reaches the `exit()`
branch (the canonical symbol `equals` is in neither operand tuple), so no
tree is reconstructed at all — the process is terminated instead. -/
theorem C6_equals_tree_round_trip_exits :
    (create_circuit_with_head_node eq_gate_tree).save_circuit =
      some [eq_gate_tree.representation] ∧
    create_circuit_from_list 4 [eq_gate_tree.representation] =
      .error .processExit ∧
    BASE_OPERATIONS "equals" = some (.binary (fun x y => x == y)) := by
  exact ⟨rfl, rfl, rfl⟩

/-- Witness for the amended claim C6: the `__main__` circuit
`B = (a and b) or c`. -/
theorem C6_round_trip_fidelity_witness :
    ∃ (rep : List NodeRepresentation) (c2 : Circuit),
      (create_circuit_with_head_node a_and_b_or_c_node).save_circuit = some rep ∧
      create_circuit_from_list 4 rep = .ok c2 ∧
      ∀ (inputs : String → Option Bool) (fs : List (Option String)),
        c2.evaluate_with_faults inputs fs =
          (create_circuit_with_head_node a_and_b_or_c_node).evaluate_with_faults
            inputs fs :=
  C6_round_trip_fidelity a_and_b_or_c_node (by decide) (by decide) (by decide)
    4 (by decide)

/-- Witness for the amended claim C9: the `__main__` tree. -/
theorem C9_amended_registry_witness :
    (create_circuit_with_head_node a_and_b_or_c_node).gate_labels =
      (gate_nodes a_and_b_or_c_node).map Node.label ∧
    (create_circuit_with_head_node a_and_b_or_c_node).head =
      some a_and_b_or_c_node.label ∧
    ∀ g ∈ gate_nodes a_and_b_or_c_node,
      pylookup (create_circuit_with_head_node a_and_b_or_c_node).gates g.label =
        some g ∧
      pylookup (create_circuit_with_head_node a_and_b_or_c_node).nodes g.label =
        some g :=
  C9_amended_registry a_and_b_or_c_node (by decide) (by decide)
